import Mathlib

/-!
Shallow embedding of `splaat`'s audio-preparation routine `prep_audio`
(`src/splaat/audio/prep.py`) and proofs about it.

Modelling conventions:
* Samples are modelled as exact rationals (`ℚ`); numpy's float64 arithmetic is
  idealized as exact arithmetic, which is the standard reading of the spec's
  "within floating tolerance" phrasing.
* A sample produced by IEEE division by zero (numpy emits a warning and yields
  `inf`/`-inf`/`nan` without raising) is modelled by the distinguished value
  `FloatVal.undef`.
* The two external collaborators with genuinely external state or heavy
  numerics — `scipy.signal.resample_poly`'s polyphase core and
  `np.random.rand` — are injected as explicit function parameters, following
  the spec's own advice to inject the random source.  The rational-factor
  computation and scipy's `up and down must be >= 1` validation, which decide
  control flow, are embedded concretely.
* Python exceptions that the code can actually raise are modelled by `Res.error`:
  numpy's `ValueError` for a zero-size reduction (`np.max`/`np.min` on an empty
  array) as `PrepError.emptyInput`, and scipy's `ValueError` for a non-positive
  resampling factor as `PrepError.badResampleFactor`.
-/

namespace Splaat

/-- Errors actually raised by the Python code paths of `prep_audio`. -/
inductive PrepError where
  | emptyInput
  | badResampleFactor
  deriving DecidableEq

/-- Result of a fallible stage: either a value or a raised error. -/
inductive Res (α : Type) where
  | ok (a : α)
  | error (e : PrepError)
  deriving DecidableEq

/-- Runtime type tags that can be passed as `output_type`.  The tags
`int8 … int64` are the ones the source recognizes for quantization
(`if output_type in {np.int8, np.int16, np.int32, np.int64}`); every other tag
(e.g. `float32`, `float64`, `uint8`) falls through to the float path. -/
inductive NpDtype where
  | float32
  | float64
  | uint8
  | int8
  | int16
  | int32
  | int64
  deriving DecidableEq

/-- Membership test mirroring `output_type in {np.int8, np.int16, np.int32, np.int64}`. -/
def NpDtype.isIntType : NpDtype → Bool
  | NpDtype.int8 => true
  | NpDtype.int16 => true
  | NpDtype.int32 => true
  | NpDtype.int64 => true
  | _ => false

/-- Bit width of the signed integer dtypes (junk `0` for non-integer tags,
never used on them). -/
def NpDtype.intBits : NpDtype → ℕ
  | NpDtype.int8 => 8
  | NpDtype.int16 => 16
  | NpDtype.int32 => 32
  | NpDtype.int64 => 64
  | _ => 0

/-- Mirrors `np.iinfo(output_type).max`, the largest value of the signed type. -/
def iinfoMax (t : NpDtype) : ℤ := 2 ^ (t.intBits - 1) - 1

/-- A float64 value during the pipeline: either an (idealized) finite value or
a non-finite value (`inf`/`-inf`/`nan`) arising from division by zero. -/
inductive FloatVal where
  | fin (q : ℚ)
  | undef
  deriving DecidableEq

/-- Final value returned by `prep_audio`: either a float array or, after
quantization, an integer array. -/
inductive PrepOutput where
  | floats (xs : List FloatVal)
  | ints (xs : List ℤ)
  deriving DecidableEq

/-- Mirrors `np.max`: the maximum of the array, raising numpy's zero-size
reduction `ValueError` (modelled `emptyInput`) on an empty array. -/
def npMax : List ℚ → Res ℚ
  | [] => Res.error PrepError.emptyInput
  | a :: l => Res.ok (l.foldl max a)

/-- Mirrors `np.min`, analogously to `npMax`. -/
def npMin : List ℚ → Res ℚ
  | [] => Res.error PrepError.emptyInput
  | a :: l => Res.ok (l.foldl min a)

/-- Resampling stage.  Mirrors
```
if target_sample_rate is None:
    target_sample_rate = sample_rate
else:
    if target_sample_rate != sample_rate:
        cd = np.gcd(sample_rate, target_sample_rate)
        audio = resample_poly(audio, up=target_sample_rate / cd, down=sample_rate / cd)
```
The polyphase core of `scipy.signal.resample_poly` is the injected parameter
`resample`; its argument validation `up and down must be >= 1` (a `ValueError`)
is embedded as `badResampleFactor`.  Both divisions are exact because the gcd
divides both rates, so Euclidean division agrees with Python's semantics here. -/
def resampleStage (resample : List ℚ → ℤ → ℤ → List ℚ)
    (audio : List ℚ) (sample_rate : ℤ) : Option ℤ → Res (List ℚ × ℤ)
  | none => Res.ok (audio, sample_rate)
  | some t =>
    if t = sample_rate then Res.ok (audio, t)
    else
      if t / (Int.gcd sample_rate t : ℤ) < 1 ∨ sample_rate / (Int.gcd sample_rate t : ℤ) < 1 then
        Res.error PrepError.badResampleFactor
      else
        Res.ok (resample audio (t / (Int.gcd sample_rate t : ℤ))
          (sample_rate / (Int.gcd sample_rate t : ℤ)), t)

/-- Polarity-normalization stage.  Mirrors
`if (np.max(audio) + np.min(audio)) < 0: audio = -audio`; the reductions raise
on an empty array. -/
def polarityStage : List ℚ → Res (List ℚ)
  | [] => Res.error PrepError.emptyInput
  | a :: l =>
    if l.foldl max a + l.foldl min a < 0 then
      Res.ok ((a :: l).map (fun v => -v))
    else
      Res.ok (a :: l)

/-- Helper for `preemphasis`: filters the tail, carrying the previous sample. -/
def preemphAux (c : ℚ) : ℚ → List ℚ → List ℚ
  | _, [] => []
  | prev, v :: rest => (v - c * prev) :: preemphAux c v rest

/-- Modelled from the spec: `librosa.effects.preemphasis`, an external library
call whose source is not part of this repository.  The spec describes it as the
first-order difference filter `y[n] = x[n] - coef * x[n-1]` with `y[0] = x[0]`. -/
def preemphasis (c : ℚ) : List ℚ → List ℚ
  | [] => []
  | x :: xs => x :: preemphAux c x xs

/-- Pre-emphasis stage.  Mirrors
`if preemph is not None and preemph > 0: audio = preemphasis(audio, coef=preemph)`. -/
def preemphStage (preemph : Option ℚ) (audio : List ℚ) : List ℚ :=
  match preemph with
  | none => audio
  | some c => if 0 < c then preemphasis c audio else audio

/-- Scaling stage.  Mirrors `if scale is not None: audio /= np.max(audio) * scale`.
When the divisor is exactly zero, numpy does not raise: every quotient is a
non-finite float (`nan` for `0/0`, `±inf` otherwise), modelled `FloatVal.undef`. -/
def scaleStage (scale : Option ℚ) (audio : List ℚ) : Res (List FloatVal) :=
  match scale with
  | none => Res.ok (audio.map FloatVal.fin)
  | some s =>
    match npMax audio with
    | Res.error e => Res.error e
    | Res.ok m =>
      if m * s = 0 then Res.ok (audio.map (fun _ => FloatVal.undef))
      else Res.ok (audio.map (fun v => FloatVal.fin (v / (m * s))))

/-- Adding a noise term to one sample; non-finite values absorb the addition. -/
def addNoise (d : ℚ) (rnd : ℚ) : FloatVal → FloatVal
  | FloatVal.fin q => FloatVal.fin (q + (rnd - 1 / 2) * d)
  | FloatVal.undef => FloatVal.undef

/-- Dither stage.  Mirrors
`if dither is not None: audio += ((np.random.rand(len(audio)) - 0.5) * dither)`,
with the random stream injected as `rand : ℕ → ℚ` (sample index ↦ draw). -/
def ditherStage (rand : ℕ → ℚ) (dither : Option ℚ) (audio : List FloatVal) : List FloatVal :=
  match dither with
  | none => audio
  | some d => audio.enum.map (fun p => addNoise d (rand p.1) p.2)

/-- Mirrors `np.rint`: round to nearest integer, ties to even. -/
def rint (q : ℚ) : ℤ :=
  if Int.fract q < 1 / 2 then ⌊q⌋
  else if 1 / 2 < Int.fract q then ⌊q⌋ + 1
  else if ⌊q⌋ % 2 = 0 then ⌊q⌋ else ⌊q⌋ + 1

/-- Mirrors `.astype` to a signed `bits`-bit integer: a C-style cast that wraps
modulo `2 ^ bits` into `[-2^(bits-1), 2^(bits-1))`. -/
def wrapCast (bits : ℕ) (z : ℤ) : ℤ :=
  (z + 2 ^ (bits - 1)) % 2 ^ bits - 2 ^ (bits - 1)

/-- Quantization of one sample: `np.rint(np.iinfo(output_type).max * v)` followed
by the integer cast.  Numpy's cast of a non-finite float is unspecified
implementation-defined behavior; the claims below never quantize such a value,
and the model returns `0` there. -/
def quantizeValue (t : NpDtype) (v : FloatVal) : ℤ :=
  match v with
  | FloatVal.fin q => wrapCast t.intBits (rint ((iinfoMax t : ℚ) * q))
  | FloatVal.undef => 0

/-- Quantization stage.  Mirrors
`if output_type in {np.int8, np.int16, np.int32, np.int64}:
    audio = np.rint(np.iinfo(output_type).max * audio).astype(output_type)`. -/
def quantizeStage (t : NpDtype) (audio : List FloatVal) : PrepOutput :=
  if t.isIntType then PrepOutput.ints (audio.map (quantizeValue t))
  else PrepOutput.floats audio

/-- Embedding of `prep_audio` from `src/splaat/audio/prep.py`.  The stages are
applied in the source's order: resample, polarity-normalize, pre-emphasize,
scale, dither, quantize; the returned rate is `target_sample_rate` when given,
else `sample_rate`.  The `quiet` flag only gates a diagnostic `print` and is
omitted. -/
def prep_audio (resample : List ℚ → ℤ → ℤ → List ℚ) (rand : ℕ → ℚ)
    (audio : List ℚ) (sample_rate : ℤ) (target_sample_rate : Option ℤ)
    (dither : Option ℚ) (preemph : Option ℚ) (scale : Option ℚ)
    (output_type : NpDtype) : Res (PrepOutput × ℤ) :=
  match resampleStage resample audio sample_rate target_sample_rate with
  | Res.error e => Res.error e
  | Res.ok (audio1, out_rate) =>
    match polarityStage audio1 with
    | Res.error e => Res.error e
    | Res.ok audio2 =>
      match scaleStage scale (preemphStage preemph audio2) with
      | Res.error e => Res.error e
      | Res.ok audio4 =>
        Res.ok (quantizeStage output_type (ditherStage rand dither audio4), out_rate)

/-! ### Helper lemmas about list folds -/

lemma le_foldl_max (l : List ℚ) : ∀ a : ℚ, a ≤ l.foldl max a := by
  induction l with
  | nil => intro a; simp
  | cons b t ih =>
    intro a
    calc a ≤ max a b := le_max_left a b
    _ ≤ t.foldl max (max a b) := ih (max a b)

lemma foldl_min_le (l : List ℚ) : ∀ a : ℚ, l.foldl min a ≤ a := by
  induction l with
  | nil => intro a; simp
  | cons b t ih =>
    intro a
    calc t.foldl min (min a b) ≤ min a b := ih (min a b)
    _ ≤ a := min_le_left a b

lemma foldl_max_neg (l : List ℚ) : ∀ a : ℚ,
    (l.map (fun v => -v)).foldl max (-a) = -(l.foldl min a) := by
  induction l with
  | nil => intro a; simp
  | cons b t ih =>
    intro a
    simp only [List.map_cons, List.foldl_cons, max_neg_neg]
    exact ih (min a b)

lemma foldl_min_neg (l : List ℚ) : ∀ a : ℚ,
    (l.map (fun v => -v)).foldl min (-a) = -(l.foldl max a) := by
  induction l with
  | nil => intro a; simp
  | cons b t ih =>
    intro a
    simp only [List.map_cons, List.foldl_cons, min_neg_neg]
    exact ih (max a b)

lemma foldl_max_div (m : ℚ) (hm : 0 ≤ m) (l : List ℚ) : ∀ a : ℚ,
    (l.map (fun v => v / m)).foldl max (a / m) = (l.foldl max a) / m := by
  induction l with
  | nil => intro a; simp
  | cons b t ih =>
    intro a
    simp only [List.map_cons, List.foldl_cons, max_div_div_right hm]
    exact ih (max a b)

lemma preemphAux_get (c : ℚ) (l : List ℚ) : ∀ (prev : ℚ) (n : ℕ),
    (preemphAux c prev l).get? n
      = (l.get? n).bind (fun v => ((prev :: l).get? n).map (fun p => v - c * p)) := by
  induction l with
  | nil => intro prev n; simp [preemphAux]
  | cons b t ih =>
    intro prev n
    cases n with
    | zero => simp [preemphAux]
    | succ k =>
      rw [preemphAux, List.get?_cons_succ, List.get?_cons_succ, List.get?_cons_succ]
      exact ih b k

/-! ### Helper lemmas about rounding and casting -/

lemma fract_def (q : ℚ) : Int.fract q = q - ⌊q⌋ := rfl

lemma floor_le_rint (q : ℚ) : ⌊q⌋ ≤ rint q := by
  unfold rint
  split
  · exact le_refl _
  · split
    · omega
    · split
      · exact le_refl _
      · omega

lemma rint_le_ceil (q : ℚ) : rint q ≤ ⌈q⌉ := by
  have hfc : ⌊q⌋ ≤ ⌈q⌉ := Int.floor_le_ceil q
  have key : (1 : ℚ) / 2 ≤ Int.fract q → ⌊q⌋ + 1 ≤ ⌈q⌉ := by
    intro h
    have h2 : (⌊q⌋ : ℚ) < q := by
      have hd := fract_def q
      nlinarith
    have : ⌊q⌋ < ⌈q⌉ := Int.lt_ceil.mpr h2
    omega
  unfold rint
  split
  · exact hfc
  · rename_i h1
    push_neg at h1
    split
    · exact key h1
    · split
      · exact hfc
      · exact key h1

lemma rint_le_of_le (q : ℚ) (z : ℤ) (h : q ≤ (z : ℚ)) : rint q ≤ z :=
  le_trans (rint_le_ceil q) (Int.ceil_le.mpr h)

lemma le_rint_of_le (q : ℚ) (z : ℤ) (h : (z : ℚ) ≤ q) : z ≤ rint q :=
  le_trans (Int.le_floor.mpr h) (floor_le_rint q)

lemma rint_neg (q : ℚ) : rint (-q) = -(rint q) := by
  by_cases h0 : Int.fract q = 0
  · obtain ⟨z, hz⟩ : ∃ z : ℤ, q = (z : ℚ) := by
      refine ⟨⌊q⌋, ?_⟩
      have := fract_def q
      rw [h0] at this
      linarith
    subst hz
    have h1 : rint (z : ℚ) = z := by
      rw [rint, Int.fract_intCast, Int.floor_intCast]
      norm_num
    have h2 : rint (-(z : ℚ)) = -z := by
      rw [← Int.cast_neg, rint, Int.fract_intCast, Int.floor_intCast]
      norm_num
    rw [h1, h2]
  · have hfq0 : 0 < Int.fract q := lt_of_le_of_ne (Int.fract_nonneg q) (Ne.symm h0)
    have hfq1 : Int.fract q < 1 := Int.fract_lt_one q
    have hfn : Int.fract (-q) = 1 - Int.fract q := Int.fract_neg h0
    have hfl : ⌊-q⌋ = -(⌊q⌋ + 1) := by
      have hc1 : ⌈q⌉ ≤ ⌊q⌋ + 1 := Int.ceil_le_floor_add_one q
      have h2 : (⌊q⌋ : ℚ) < q := by
        have hd := fract_def q
        nlinarith
      have hc2 : ⌊q⌋ < ⌈q⌉ := Int.lt_ceil.mpr h2
      rw [Int.floor_neg]
      omega
    rcases lt_trichotomy (Int.fract q) (1 / 2) with h | h | h
    · have hl : rint (-q) = ⌊-q⌋ + 1 := by
        rw [rint, hfn, if_neg (by linarith), if_pos (by linarith)]
      have hr : rint q = ⌊q⌋ := by rw [rint, if_pos h]
      rw [hl, hr, hfl]
      omega
    · have hf2 : Int.fract (-q) = 1 / 2 := by rw [hfn, h]; norm_num
      by_cases hp : ⌊q⌋ % 2 = 0
      · have hp2 : ¬ ⌊-q⌋ % 2 = 0 := by rw [hfl]; omega
        have hl : rint (-q) = ⌊-q⌋ + 1 := by
          rw [rint, hf2, if_neg (lt_irrefl _), if_neg (lt_irrefl _), if_neg hp2]
        have hr : rint q = ⌊q⌋ := by
          rw [rint, h, if_neg (lt_irrefl _), if_neg (lt_irrefl _), if_pos hp]
        rw [hl, hr, hfl]
        omega
      · have hp2 : ⌊-q⌋ % 2 = 0 := by rw [hfl]; omega
        have hl : rint (-q) = ⌊-q⌋ := by
          rw [rint, hf2, if_neg (lt_irrefl _), if_neg (lt_irrefl _), if_pos hp2]
        have hr : rint q = ⌊q⌋ + 1 := by
          rw [rint, h, if_neg (lt_irrefl _), if_neg (lt_irrefl _), if_neg hp]
        rw [hl, hr, hfl]
    · have hl : rint (-q) = ⌊-q⌋ := by
        rw [rint, hfn, if_pos (by linarith)]
      have hr : rint q = ⌊q⌋ + 1 := by
        rw [rint, if_neg (by linarith), if_pos h]
      rw [hl, hr, hfl]

lemma wrapCast_eq_self (bits : ℕ) (hb : 1 ≤ bits) (z : ℤ)
    (h1 : -(2 ^ (bits - 1)) ≤ z) (h2 : z < 2 ^ (bits - 1)) : wrapCast bits z = z := by
  have hpow : (2 : ℤ) ^ bits = 2 ^ (bits - 1) * 2 := by
    conv_lhs => rw [← Nat.sub_add_cancel hb]
    rw [pow_succ]
  have hmod : (z + 2 ^ (bits - 1)) % 2 ^ bits = z + 2 ^ (bits - 1) := by
    refine Int.emod_eq_of_lt (by linarith) ?_
    rw [hpow]
    linarith
  rw [wrapCast, hmod]
  ring

lemma rint_bounds {q : ℚ} {m : ℤ} (h : |q| ≤ (m : ℚ)) : -m ≤ rint q ∧ rint q ≤ m := by
  rw [abs_le] at h
  constructor
  · refine le_rint_of_le q (-m) ?_
    push_cast
    exact h.1
  · exact rint_le_of_le q m h.2

/-- Core facts about quantizing one in-range sample to a `b`-bit signed type:
the cast does not wrap and the rounded value stays within `±(2^(b-1) - 1)`. -/
lemma quantize_core (b : ℕ) (hb : 1 ≤ b) (v : ℚ) (hv : |v| ≤ 1) :
    wrapCast b (rint ((((2 : ℤ) ^ (b - 1) - 1 : ℤ) : ℚ) * v))
      = rint ((((2 : ℤ) ^ (b - 1) - 1 : ℤ) : ℚ) * v) ∧
    -((2 : ℤ) ^ (b - 1) - 1) ≤ rint ((((2 : ℤ) ^ (b - 1) - 1 : ℤ) : ℚ) * v) ∧
    rint ((((2 : ℤ) ^ (b - 1) - 1 : ℤ) : ℚ) * v) ≤ (2 : ℤ) ^ (b - 1) - 1 := by
  have hpow : (0 : ℤ) < 2 ^ (b - 1) := pow_pos (by norm_num) _
  have hm : (0 : ℤ) ≤ 2 ^ (b - 1) - 1 := by omega
  have habs : |(((2 : ℤ) ^ (b - 1) - 1 : ℤ) : ℚ) * v| ≤ (((2 : ℤ) ^ (b - 1) - 1 : ℤ) : ℚ) := by
    rw [abs_mul, abs_of_nonneg (by exact_mod_cast hm)]
    exact mul_le_of_le_one_right (by exact_mod_cast hm) hv
  obtain ⟨hlo, hhi⟩ := rint_bounds habs
  refine ⟨wrapCast_eq_self b hb _ (by omega) (by omega), hlo, hhi⟩

lemma polarity_ok_max_nonneg {x y : List ℚ} {m : ℚ}
    (hp : polarityStage x = Res.ok y) (hm : npMax y = Res.ok m) : 0 ≤ m := by
  cases x with
  | nil => exact absurd hp (by simp [polarityStage])
  | cons a l =>
    have hminmax : l.foldl min a ≤ l.foldl max a :=
      le_trans (foldl_min_le l a) (le_foldl_max l a)
    rw [polarityStage] at hp
    by_cases hc : l.foldl max a + l.foldl min a < 0
    · rw [if_pos hc] at hp
      injection hp with hy
      subst hy
      rw [List.map_cons, npMax] at hm
      injection hm with hmv
      rw [foldl_max_neg] at hmv
      subst hmv
      linarith
    · rw [if_neg hc] at hp
      injection hp with hy
      subst hy
      rw [npMax] at hm
      injection hm with hmv
      subst hmv
      push_neg at hc
      linarith

lemma gcd_cast_pos {r t : ℤ} (ht : t ≠ 0) : 0 < (Int.gcd r t : ℤ) := by
  have h0 : Int.gcd r t ≠ 0 := by
    intro h
    exact ht (Int.gcd_eq_zero_iff.mp h).2
  exact_mod_cast Nat.pos_of_ne_zero h0

lemma one_le_ediv_of_dvd {c t : ℤ} (hc : 0 < c) (hd : c ∣ t) (ht : 0 < t) : 1 ≤ t / c := by
  obtain ⟨k, hk⟩ := hd
  subst hk
  rw [Int.mul_ediv_cancel_left k hc.ne']
  nlinarith

lemma ediv_nonpos_of_dvd {c r : ℤ} (hc : 0 < c) (hd : c ∣ r) (hr : r ≤ 0) : r / c ≤ 0 := by
  obtain ⟨k, hk⟩ := hd
  subst hk
  rw [Int.mul_ediv_cancel_left k hc.ne']
  nlinarith

/-! ### Claim theorems -/

/-- C9: for any non-empty waveform entering the polarity-normalization stage
with `max(x) + min(x) < 0`, the stage negates every sample and the result
satisfies `max(y) + min(y) ≥ 0`; otherwise the waveform passes through
unchanged. -/
theorem polarity_normalizer_spec (a : ℚ) (l : List ℚ) :
    (l.foldl max a + l.foldl min a < 0 →
      polarityStage (a :: l) = Res.ok ((a :: l).map (fun v => -v)) ∧
      0 ≤ (l.map (fun v => -v)).foldl max (-a) + (l.map (fun v => -v)).foldl min (-a)) ∧
    (0 ≤ l.foldl max a + l.foldl min a →
      polarityStage (a :: l) = Res.ok (a :: l)) := by
  constructor
  · intro hc
    refine ⟨by rw [polarityStage, if_pos hc], ?_⟩
    rw [foldl_max_neg, foldl_min_neg]
    linarith
  · intro hc
    rw [polarityStage, if_neg (not_lt.mpr hc)]

theorem polarity_normalizer_spec_witness :
    polarityStage [(-1 : ℚ)] = Res.ok [1] ∧ polarityStage [(2 : ℚ)] = Res.ok [2] := by
  constructor
  · have h := ((polarity_normalizer_spec (-1) []).1 (by norm_num [List.foldl_nil])).1
    simpa using h
  · exact (polarity_normalizer_spec 2 []).2 (by norm_num [List.foldl_nil])

/-- C1 counterexample: with every optional stage disabled, `prep_audio` does
not return the input unchanged — the always-on polarity normalizer negates the
waveform `[-1]`. -/
theorem identity_path_counterexample :
    prep_audio (fun a _ _ => a) (fun _ => 0) [(-1 : ℚ)] 1 none none none none NpDtype.float32
      = Res.ok (PrepOutput.floats [FloatVal.fin 1], 1) ∧
    prep_audio (fun a _ _ => a) (fun _ => 0) [(-1 : ℚ)] 1 none none none none NpDtype.float32
      ≠ Res.ok (PrepOutput.floats ([(-1 : ℚ)].map FloatVal.fin), 1) := by
  have h : prep_audio (fun a _ _ => a) (fun _ => 0) [(-1 : ℚ)] 1 none none none none
      NpDtype.float32 = Res.ok (PrepOutput.floats [FloatVal.fin 1], 1) := by
    norm_num [prep_audio, resampleStage, polarityStage, preemphStage, scaleStage,
      ditherStage, quantizeStage, NpDtype.isIntType]
  refine ⟨h, ?_⟩
  rw [h]
  simp
  norm_num

/-- C1 (amended): with all optional stages disabled, `prep_audio` returns the
waveform unchanged (as floats) with output rate equal to the source rate,
provided the always-on polarity normalizer does not trigger, i.e.
`max(x) + min(x) ≥ 0`; otherwise it would return the negated waveform. -/
theorem identity_path_amended (resample : List ℚ → ℤ → ℤ → List ℚ) (rand : ℕ → ℚ)
    (a : ℚ) (l : List ℚ) (r : ℤ)
    (hpol : 0 ≤ l.foldl max a + l.foldl min a) :
    prep_audio resample rand (a :: l) r none none none none NpDtype.float32
      = Res.ok (PrepOutput.floats ((a :: l).map FloatVal.fin), r) := by
  have h1 : polarityStage (a :: l) = Res.ok (a :: l) := by
    rw [polarityStage, if_neg (not_lt.mpr hpol)]
  simp [prep_audio, resampleStage, h1, preemphStage, scaleStage, ditherStage,
    quantizeStage, NpDtype.isIntType]

theorem identity_path_amended_witness :
    prep_audio (fun a _ _ => a) (fun _ => 0) [(1 : ℚ), 2] 5 none none none none NpDtype.float32
      = Res.ok (PrepOutput.floats [FloatVal.fin 1, FloatVal.fin 2], 5) := by
  have h := identity_path_amended (fun a _ _ => a) (fun _ => 0) 1 [2] 5
    (by norm_num [List.foldl_cons, List.foldl_nil])
  simpa using h

/-- C4 counterexample: on the all-zero waveform with `scale` provided,
`prep_audio` does not signal an error — numpy's array division by zero only
warns, so the call returns a result (of non-finite samples). -/
theorem divide_by_zero_counterexample :
    prep_audio (fun a _ _ => a) (fun _ => 0) [(0 : ℚ), 0, 0] 1 none none none (some 1)
      NpDtype.float32
      = Res.ok (PrepOutput.floats [FloatVal.undef, FloatVal.undef, FloatVal.undef], 1) := by
  norm_num [prep_audio, resampleStage, polarityStage, preemphStage, scaleStage, npMax,
    ditherStage, quantizeStage, NpDtype.isIntType, List.foldl_cons, List.foldl_nil]

/-- C4 (amended): when the peak at the scaling stage times `scale` is zero,
`prep_audio` does not raise; IEEE division by zero produces non-finite samples
(`nan`/`±inf`), and the call returns them together with the output rate. -/
theorem divide_by_zero_amended (resample : List ℚ → ℤ → ℤ → List ℚ) (rand : ℕ → ℚ)
    (x y : List ℚ) (r : ℤ) (s m : ℚ)
    (hpol : polarityStage x = Res.ok y) (hm : npMax y = Res.ok m) (hz : m * s = 0) :
    prep_audio resample rand x r none none none (some s) NpDtype.float32
      = Res.ok (PrepOutput.floats (y.map (fun _ => FloatVal.undef)), r) := by
  simp [prep_audio, resampleStage, hpol, preemphStage, scaleStage, hm, hz, ditherStage,
    quantizeStage, NpDtype.isIntType]

theorem divide_by_zero_amended_witness :
    prep_audio (fun a _ _ => a) (fun _ => 0) [(0 : ℚ)] 3 none none none (some 2)
      NpDtype.float32
      = Res.ok (PrepOutput.floats [FloatVal.undef], 3) := by
  have h := divide_by_zero_amended (fun a _ _ => a) (fun _ => 0) [(0 : ℚ)] [(0 : ℚ)] 3 2 0
    (by norm_num [polarityStage, List.foldl_nil]) (by norm_num [npMax]) (by norm_num)
  simpa using h

/-- C6 counterexample: `prep_audio` performs no rate validation — with a
non-positive `sample_rate` and no resampling requested it returns a result
(with the bogus rate) instead of signalling InvalidRate. -/
theorem invalid_rate_counterexample :
    prep_audio (fun a _ _ => a) (fun _ => 0) [(1 : ℚ)] 0 none none none none NpDtype.float32
      = Res.ok (PrepOutput.floats [FloatVal.fin 1], 0) := by
  norm_num [prep_audio, resampleStage, polarityStage, preemphStage, scaleStage,
    ditherStage, quantizeStage, NpDtype.isIntType, List.foldl_nil]

/-- C6 (amended): `prep_audio` itself validates no rates.  With
`target_sample_rate = None` a non-positive `sample_rate` is passed through and
a result is returned; a rate-related failure arises only when resampling is
actually attempted, via the resampler's rejection of a non-positive
up/down factor. -/
theorem invalid_rate_amended (resample : List ℚ → ℤ → ℤ → List ℚ) (rand : ℕ → ℚ)
    (a : ℚ) (l : List ℚ) (r : ℤ) (hr : r ≤ 0) :
    (∃ out, prep_audio resample rand (a :: l) r none none none none NpDtype.float32
        = Res.ok (out, r)) ∧
    (∀ t : ℤ, 0 < t →
      prep_audio resample rand (a :: l) r (some t) none none none NpDtype.float32
        = Res.error PrepError.badResampleFactor) := by
  constructor
  · by_cases hc : l.foldl max a + l.foldl min a < 0
    · have h1 : polarityStage (a :: l) = Res.ok ((a :: l).map (fun v => -v)) := by
        rw [polarityStage, if_pos hc]
      exact ⟨PrepOutput.floats (((a :: l).map (fun v => -v)).map FloatVal.fin), by
        simp [prep_audio, resampleStage, h1, preemphStage, scaleStage, ditherStage,
          quantizeStage, NpDtype.isIntType]⟩
    · have h1 : polarityStage (a :: l) = Res.ok (a :: l) := by
        rw [polarityStage, if_neg hc]
      exact ⟨PrepOutput.floats ((a :: l).map FloatVal.fin), by
        simp [prep_audio, resampleStage, h1, preemphStage, scaleStage, ditherStage,
          quantizeStage, NpDtype.isIntType]⟩
  · intro t ht
    have hne : ¬ (t = r) := by omega
    have hcd : 0 < (Int.gcd r t : ℤ) := gcd_cast_pos (by omega)
    have hdown : r / (Int.gcd r t : ℤ) ≤ 0 :=
      ediv_nonpos_of_dvd hcd Int.gcd_dvd_left hr
    have hcond : t / (Int.gcd r t : ℤ) < 1 ∨ r / (Int.gcd r t : ℤ) < 1 := Or.inr (by omega)
    simp [prep_audio, resampleStage, hne, hcond]

theorem invalid_rate_amended_witness :
    (∃ out, prep_audio (fun a _ _ => a) (fun _ => 0) [(1 : ℚ)] (-4) none none none none
        NpDtype.float32 = Res.ok (out, -4)) ∧
    prep_audio (fun a _ _ => a) (fun _ => 0) [(1 : ℚ)] (-4) (some 8) none none none
        NpDtype.float32 = Res.error PrepError.badResampleFactor := by
  have h := invalid_rate_amended (fun a _ _ => a) (fun _ => 0) 1 [] (-4) (by norm_num)
  exact ⟨h.1, h.2 8 (by norm_num)⟩

/-- C7 counterexample: an `output_type` outside the recognized integer set
(here `float64`) does not raise UnsupportedFormat — the code silently returns
the unquantized float waveform. -/
theorem unsupported_format_counterexample :
    prep_audio (fun a _ _ => a) (fun _ => 0) [(1 : ℚ)] 1 none none none none NpDtype.float64
      = Res.ok (PrepOutput.floats [FloatVal.fin 1], 1) := by
  norm_num [prep_audio, resampleStage, polarityStage, preemphStage, scaleStage,
    ditherStage, quantizeStage, NpDtype.isIntType, List.foldl_nil]

/-- C7 (amended): `prep_audio` performs no `output_type` validation: any tag
outside `{int8, int16, int32, int64}` — recognized float or not — takes the
float path, and the waveform is returned unquantized with no error. -/
theorem unsupported_format_amended (resample : List ℚ → ℤ → ℤ → List ℚ) (rand : ℕ → ℚ)
    (t : NpDtype) (ht : t.isIntType = false) (a : ℚ) (l : List ℚ) (r : ℤ) :
    ∃ y : List ℚ, polarityStage (a :: l) = Res.ok y ∧
      prep_audio resample rand (a :: l) r none none none none t
        = Res.ok (PrepOutput.floats (y.map FloatVal.fin), r) := by
  by_cases hc : l.foldl max a + l.foldl min a < 0
  · have h1 : polarityStage (a :: l) = Res.ok ((a :: l).map (fun v => -v)) := by
      rw [polarityStage, if_pos hc]
    exact ⟨(a :: l).map (fun v => -v), h1, by
      simp [prep_audio, resampleStage, h1, preemphStage, scaleStage, ditherStage,
        quantizeStage, ht]⟩
  · have h1 : polarityStage (a :: l) = Res.ok (a :: l) := by
      rw [polarityStage, if_neg hc]
    exact ⟨a :: l, h1, by
      simp [prep_audio, resampleStage, h1, preemphStage, scaleStage, ditherStage,
        quantizeStage, ht]⟩

theorem unsupported_format_amended_witness :
    ∃ y : List ℚ, polarityStage [(2 : ℚ)] = Res.ok y ∧
      prep_audio (fun a _ _ => a) (fun _ => 0) [(2 : ℚ)] 7 none none none none NpDtype.uint8
        = Res.ok (PrepOutput.floats (y.map FloatVal.fin), 7) := by
  exact unsupported_format_amended (fun a _ _ => a) (fun _ => 0) NpDtype.uint8 rfl 2 [] 7

/-- C5: on the empty waveform `prep_audio` fails with EmptyInput for every
combination of options with well-formed rates: the first reduction over the
array (`np.max` in the polarity stage) raises numpy's zero-size-reduction
`ValueError`.  The injected resampler is assumed to map an empty input to an
empty output, matching `resample_poly`'s output-length formula. -/
theorem empty_input_error (resample : List ℚ → ℤ → ℤ → List ℚ) (rand : ℕ → ℚ)
    (r : ℤ) (tgt : Option ℤ) (dth pre scl : Option ℚ) (ot : NpDtype)
    (hr : 0 < r) (htgt : ∀ t, tgt = some t → 0 < t)
    (hres : ∀ u d, resample [] u d = []) :
    prep_audio resample rand [] r tgt dth pre scl ot = Res.error PrepError.emptyInput := by
  cases tgt with
  | none => simp [prep_audio, resampleStage, polarityStage]
  | some t =>
    have ht : 0 < t := htgt t rfl
    by_cases he : t = r
    · simp [prep_audio, resampleStage, he, polarityStage]
    · have hcd : 0 < (Int.gcd r t : ℤ) := gcd_cast_pos (by omega)
      have hup : 1 ≤ t / (Int.gcd r t : ℤ) :=
        one_le_ediv_of_dvd hcd Int.gcd_dvd_right ht
      have hdown : 1 ≤ r / (Int.gcd r t : ℤ) :=
        one_le_ediv_of_dvd hcd Int.gcd_dvd_left hr
      have hcond : ¬ (t / (Int.gcd r t : ℤ) < 1 ∨ r / (Int.gcd r t : ℤ) < 1) := by
        push_neg
        exact ⟨hup, hdown⟩
      simp [prep_audio, resampleStage, he, hcond, hres, polarityStage]

theorem empty_input_error_witness :
    prep_audio (fun a _ _ => a) (fun _ => 0) [] 3 (some 6) none none none NpDtype.float32
      = Res.error PrepError.emptyInput := by
  exact empty_input_error (fun a _ _ => a) (fun _ => 0) 3 (some 6) none none none
    NpDtype.float32 (by norm_num) (fun t h => by cases h; norm_num) (fun u d => rfl)

/-- C2: with `scale = s` and every other optional stage disabled, the scaler
divides every sample by the signed maximum `m` of the (polarity-normalized)
waveform times `s`; for `s = 1` and a non-zero peak the output's signed
maximum is exactly 1. -/
theorem scale_stage_spec (resample : List ℚ → ℤ → ℤ → List ℚ) (rand : ℕ → ℚ)
    (x y : List ℚ) (r : ℤ) (s m : ℚ)
    (hpol : polarityStage x = Res.ok y) (hm : npMax y = Res.ok m) (hms : m * s ≠ 0) :
    prep_audio resample rand x r none none none (some s) NpDtype.float32
      = Res.ok (PrepOutput.floats (y.map (fun v => FloatVal.fin (v / (m * s)))), r) ∧
    (s = 1 → npMax (y.map (fun v => v / (m * s))) = Res.ok 1) := by
  constructor
  · simp [prep_audio, resampleStage, hpol, preemphStage, scaleStage, hm, hms,
      ditherStage, quantizeStage, NpDtype.isIntType]
  · intro hs
    subst hs
    have hm0 : 0 ≤ m := polarity_ok_max_nonneg hpol hm
    have hmne : m ≠ 0 := by
      intro h
      rw [h] at hms
      norm_num at hms
    cases y with
    | nil => exact absurd hm (by simp [npMax])
    | cons b t =>
      rw [npMax] at hm
      injection hm with hmv
      simp only [mul_one]
      rw [List.map_cons, npMax]
      congr 1
      rw [foldl_max_div m hm0 t b, hmv, div_self hmne]

theorem scale_stage_spec_witness :
    prep_audio (fun a _ _ => a) (fun _ => 0) [(1 : ℚ), 2] 5 none none none (some 1)
      NpDtype.float32
      = Res.ok (PrepOutput.floats [FloatVal.fin (1 / 2), FloatVal.fin 1], 5) ∧
    npMax [(1 : ℚ) / 2, 1] = Res.ok 1 := by
  have hpol : polarityStage [(1 : ℚ), 2] = Res.ok [1, 2] := by
    norm_num [polarityStage, List.foldl_cons, List.foldl_nil]
  have hm : npMax [(1 : ℚ), 2] = Res.ok 2 := by
    norm_num [npMax, List.foldl_cons, List.foldl_nil]
  have h := scale_stage_spec (fun a _ _ => a) (fun _ => 0) [(1 : ℚ), 2] [(1 : ℚ), 2] 5 1 2
    hpol hm (by norm_num)
  have h1 := h.1
  have h2 := h.2 rfl
  norm_num at h1 h2
  exact ⟨h1, h2⟩

/-- C3 counterexample: quantizing the boundary sample `-1.0` to int16 yields
`-32767`, not `-32768` — both polarities are scaled by the positive maximum
`32767`. -/
theorem quantization_boundary_counterexample :
    prep_audio (fun a _ _ => a) (fun _ => 0) [(1 : ℚ), -1] 1 none none none none
      NpDtype.int16 = Res.ok (PrepOutput.ints [32767, -32767], 1) ∧
    (-32767 : ℤ) ≠ -32768 := by
  constructor
  · norm_num [prep_audio, resampleStage, polarityStage, preemphStage, scaleStage,
      ditherStage, quantizeStage, quantizeValue, NpDtype.isIntType, NpDtype.intBits,
      iinfoMax, rint, Int.fract, wrapCast, List.foldl_cons, List.foldl_nil]
  · norm_num

/-- C3 (amended): for int16 output with every incoming sample a finite value in
`[-1, 1]`, every quantized sample lies in `[-32768, 32767]` (indeed in
`[-32767, 32767]`); quantizing `1.0` yields `32767` and quantizing `-1.0`
yields `-32767`. -/
theorem quantization_range (xs : List FloatVal)
    (h : ∀ v ∈ xs, ∃ q : ℚ, v = FloatVal.fin q ∧ |q| ≤ 1) :
    quantizeStage NpDtype.int16 xs = PrepOutput.ints (xs.map (quantizeValue NpDtype.int16)) ∧
    (∀ z ∈ xs.map (quantizeValue NpDtype.int16), -32768 ≤ z ∧ z ≤ 32767) ∧
    quantizeValue NpDtype.int16 (FloatVal.fin 1) = 32767 ∧
    quantizeValue NpDtype.int16 (FloatVal.fin (-1)) = -32767 := by
  refine ⟨by simp [quantizeStage, NpDtype.isIntType], ?_, ?_, ?_⟩
  · intro z hz
    rw [List.mem_map] at hz
    obtain ⟨v, hv, rfl⟩ := hz
    obtain ⟨q, rfl, hq⟩ := h v hv
    have hcore := quantize_core 16 (by norm_num) q hq
    have heq : quantizeValue NpDtype.int16 (FloatVal.fin q)
        = wrapCast 16 (rint ((((2 : ℤ) ^ (16 - 1) - 1 : ℤ) : ℚ) * q)) := rfl
    have h1 := hcore.2.1
    have h2 := hcore.2.2
    rw [heq, hcore.1]
    norm_num at h1 h2 ⊢
    exact ⟨by linarith, h2⟩
  · norm_num [quantizeValue, NpDtype.intBits, iinfoMax, rint, Int.fract, wrapCast]
  · norm_num [quantizeValue, NpDtype.intBits, iinfoMax, rint, Int.fract, wrapCast]

theorem quantization_range_witness :
    -32768 ≤ quantizeValue NpDtype.int16 (FloatVal.fin (1 / 2)) ∧
    quantizeValue NpDtype.int16 (FloatVal.fin (1 / 2)) ≤ 32767 := by
  have h := quantization_range [FloatVal.fin (1 / 2)]
    (fun v hv => by
      simp at hv
      exact ⟨2⁻¹, hv, by rw [abs_le]; norm_num⟩)
  exact h.2.1 _ (by simp)

/-- C8 (preemphasis modelled from the spec): when `preemph = c > 0` the stage
applies `y[0] = x[0]` and `y[n] = x[n] - c * x[n-1]`; when `preemph` is absent
or `c ≤ 0` the waveform passes through unchanged. -/
theorem preemphasis_stage_spec (c : ℚ) (x : List ℚ) :
    (0 < c →
      (preemphStage (some c) x).get? 0 = x.get? 0 ∧
      ∀ n : ℕ, (preemphStage (some c) x).get? (n + 1)
        = (x.get? (n + 1)).bind (fun v => (x.get? n).map (fun p => v - c * p))) ∧
    (c ≤ 0 → preemphStage (some c) x = x) ∧
    preemphStage none x = x := by
  refine ⟨?_, ?_, rfl⟩
  · intro hc
    rw [preemphStage, if_pos hc]
    cases x with
    | nil => simp [preemphasis]
    | cons x0 xs =>
      constructor
      · simp [preemphasis]
      · intro n
        rw [preemphasis]
        rw [List.get?_cons_succ, List.get?_cons_succ, preemphAux_get c xs x0 n]
  · intro hc
    rw [preemphStage, if_neg (not_lt.mpr hc)]

theorem preemphasis_stage_spec_witness :
    (preemphStage (some ((1 : ℚ) / 2)) [1, 2]).get? 1 = some (3 / 2) ∧
    preemphStage (some (-(1 : ℚ))) [3] = [3] := by
  constructor
  · have h := ((preemphasis_stage_spec ((1 : ℚ) / 2) [1, 2]).1 (by norm_num)).2 0
    norm_num at h ⊢
    exact h
  · exact (preemphasis_stage_spec (-(1 : ℚ)) [3]).2.1 (by norm_num)

/-- C10: for every recognized integer output type and every sample `v` with
`|v| ≤ 1`, quantization is odd-symmetric — `quantize(-v) = -quantize(v)` —
because both polarities are scaled by the type's positive maximum and `np.rint`
is odd; consequently the type's most negative value is never produced from
inputs in `[-1, 1]`. -/
theorem quantize_odd_symmetric (t : NpDtype) (ht : t.isIntType = true) (v : ℚ)
    (hv : |v| ≤ 1) :
    quantizeValue t (FloatVal.fin (-v)) = -(quantizeValue t (FloatVal.fin v)) ∧
    quantizeValue t (FloatVal.fin v) ≠ -(2 ^ (t.intBits - 1)) := by
  have hb : 1 ≤ t.intBits := by
    cases t <;> norm_num [NpDtype.isIntType, NpDtype.intBits] at ht ⊢
  obtain ⟨hw, hlo, hhi⟩ := quantize_core t.intBits hb v hv
  obtain ⟨hw2, hlo2, hhi2⟩ := quantize_core t.intBits hb (-v) (by rwa [abs_neg])
  have hpow : (0 : ℤ) < 2 ^ (t.intBits - 1) := pow_pos (by norm_num) _
  have harg : ((((2 : ℤ) ^ (t.intBits - 1) - 1 : ℤ) : ℚ)) * (-v)
      = -(((((2 : ℤ) ^ (t.intBits - 1) - 1 : ℤ) : ℚ)) * v) := by ring
  have hval : quantizeValue t (FloatVal.fin v)
      = wrapCast t.intBits (rint ((((2 : ℤ) ^ (t.intBits - 1) - 1 : ℤ) : ℚ) * v)) := rfl
  have hval2 : quantizeValue t (FloatVal.fin (-v))
      = wrapCast t.intBits (rint ((((2 : ℤ) ^ (t.intBits - 1) - 1 : ℤ) : ℚ) * (-v))) := rfl
  constructor
  · rw [hval, hval2, hw, hw2, harg, rint_neg]
  · rw [hval, hw]
    omega

theorem quantize_odd_symmetric_witness :
    quantizeValue NpDtype.int16 (FloatVal.fin (-(1 / 2 : ℚ)))
      = -(quantizeValue NpDtype.int16 (FloatVal.fin (1 / 2))) ∧
    quantizeValue NpDtype.int16 (FloatVal.fin (1 / 2 : ℚ)) ≠ -32768 := by
  have h := quantize_odd_symmetric NpDtype.int16 rfl (1 / 2) (by rw [abs_le]; norm_num)
  refine ⟨h.1, ?_⟩
  have h2 := h.2
  norm_num [NpDtype.intBits] at h2
  exact h2

end Splaat
